import Mathlib

/-!
Verification development for the GAB_AssetMind price reconciliation pipeline.

Strings are embedded as lists of Unicode code points (`List Nat`), matching
Python's view of `str` as a sequence of code points.  Currency amounts are
embedded as `Int`, prices and metric values as `ℚ`.
-/

namespace AssetMind

/-- Code points of a string literal, for readable concrete inputs. -/
def codes (s : String) : List Nat := s.data.map Char.toNat

/-! ## Identity Normalizer (`_norm`)

Modelled from the spec: `models.py`'s `_norm` is not under `src/`; the
CHANGELOG (lines 14-24) records only that it maps `'NA'`, `'N/A'`, `'null'`,
`'nan'`, `''` to the empty string, and the spec (section 4.1) states the full
rule: trim whitespace, case-fold, and map the sentinel set (case-insensitive)
to the canonical empty string; all other values pass through trimmed and
case-folded. -/

/-- Python `str.strip` default whitespace: space, \t, \n, \r, \x0b, \x0c. -/
def isSpaceCode (n : Nat) : Bool :=
  n == 32 || n == 9 || n == 10 || n == 13 || n == 11 || n == 12

/-- ASCII case-folding of one code point (Python `str.lower` on ASCII). -/
def lowerCode (n : Nat) : Nat := if 65 ≤ n ∧ n ≤ 90 then n + 32 else n

/-- Python `str.strip`: drop whitespace from both ends. -/
def stripCodes (l : List Nat) : List Nat :=
  ((l.dropWhile isSpaceCode).reverse.dropWhile isSpaceCode).reverse

/-- The sentinel set {empty, "na", "n/a", "null", "nan"}, already case-folded. -/
def sentinelCodes : List (List Nat) :=
  [[], codes "na", codes "n/a", codes "null", codes "nan"]

/-- Modelled from the spec: `_norm` — trim, case-fold, map sentinels to the
canonical empty string, pass everything else through trimmed and case-folded. -/
def norm (l : List Nat) : List Nat :=
  let t := (stripCodes l).map lowerCode
  if t ∈ sentinelCodes then [] else t

/-! ### Lemmas about stripping and case-folding -/

theorem lowerCode_idem (n : Nat) : lowerCode (lowerCode n) = lowerCode n := by
  unfold lowerCode
  split
  · rw [if_neg (by omega)]
  · rfl

theorem isSpace_lowerCode (n : Nat) : isSpaceCode (lowerCode n) = isSpaceCode n := by
  unfold lowerCode
  split
  · rename_i h
    have h1 : isSpaceCode n = false := by
      simp only [isSpaceCode, Bool.or_eq_false_iff, beq_eq_false_iff_ne, ne_eq]
      omega
    have h2 : isSpaceCode (n + 32) = false := by
      simp only [isSpaceCode, Bool.or_eq_false_iff, beq_eq_false_iff_ne, ne_eq]
      omega
    rw [h1, h2]
  · rfl

theorem dropWhile_all {p : Nat → Bool} {l : List Nat} (h : ∀ c ∈ l, p c = true) :
    l.dropWhile p = [] := by
  induction l with
  | nil => rfl
  | cons a t ih =>
    simp only [List.dropWhile, h a (by simp)]
    exact ih fun c hc => h c (by simp [hc])

theorem dropWhile_append_all {p : Nat → Bool} {w l : List Nat}
    (h : ∀ c ∈ w, p c = true) : (w ++ l).dropWhile p = l.dropWhile p := by
  induction w with
  | nil => rfl
  | cons a t ih =>
    simp only [List.cons_append, List.dropWhile, h a (by simp)]
    exact ih fun c hc => h c (by simp [hc])

theorem dropWhile_cons_false {p : Nat → Bool} {a : Nat} {l : List Nat}
    (h : p a = false) : (a :: l).dropWhile p = a :: l := by
  simp [List.dropWhile, h]

theorem dropWhile_dropWhile (p : Nat → Bool) (l : List Nat) :
    (l.dropWhile p).dropWhile p = l.dropWhile p := by
  induction l with
  | nil => rfl
  | cons a t ih =>
    by_cases h : p a = true
    · simp only [List.dropWhile, h]; exact ih
    · rw [dropWhile_cons_false (by simpa using h),
        dropWhile_cons_false (by simpa using h)]

theorem dropWhile_exists_prefix (p : Nat → Bool) (l : List Nat) :
    ∃ w, w ++ l.dropWhile p = l := by
  induction l with
  | nil => exact ⟨[], rfl⟩
  | cons a t ih =>
    by_cases h : p a = true
    · obtain ⟨w, hw⟩ := ih
      refine ⟨a :: w, ?_⟩
      simp only [List.dropWhile, h, List.cons_append, hw]
    · exact ⟨[], by rw [dropWhile_cons_false (by simpa using h)]; rfl⟩

theorem dropWhile_fix_head {p : Nat → Bool} {a : Nat} {l : List Nat}
    (h : (a :: l).dropWhile p = a :: l) : p a = false := by
  by_cases hp : p a = true
  · exfalso
    have hdrop : List.dropWhile p l = a :: l := by
      rw [← h]
      simp only [List.dropWhile, hp]
    obtain ⟨w, hw⟩ := dropWhile_exists_prefix p l
    rw [hdrop] at hw
    have := congrArg List.length hw
    simp at this
    omega
  · simpa using hp

/-- The two fixed-point properties that make `stripCodes` the identity. -/
theorem stripCodes_of_fixed {l : List Nat}
    (h1 : l.dropWhile isSpaceCode = l)
    (h2 : l.reverse.dropWhile isSpaceCode = l.reverse) :
    stripCodes l = l := by
  unfold stripCodes
  rw [h1, h2, List.reverse_reverse]

theorem stripCodes_fixed_left (l : List Nat) :
    (stripCodes l).dropWhile isSpaceCode = stripCodes l := by
  unfold stripCodes
  set x := l.dropWhile isSpaceCode with hx
  set y := x.reverse.dropWhile isSpaceCode with hy
  have hxfix : x.dropWhile isSpaceCode = x := dropWhile_dropWhile _ _
  obtain ⟨w, hw⟩ := dropWhile_exists_prefix isSpaceCode x.reverse
  rw [← hy] at hw
  -- x = y.reverse ++ w.reverse
  have hx2 : y.reverse ++ w.reverse = x := by
    have := congrArg List.reverse hw
    simpa using this
  cases hyr : y.reverse with
  | nil => simp [hyr]
  | cons a t =>
    have hxa : x = a :: (t ++ w.reverse) := by
      rw [← hx2, hyr]; simp
    have hpa : isSpaceCode a = false := by
      apply dropWhile_fix_head (l := t ++ w.reverse)
      rw [← hxa, hxfix, hxa]
    rw [dropWhile_cons_false hpa]

theorem stripCodes_fixed_right (l : List Nat) :
    (stripCodes l).reverse.dropWhile isSpaceCode = (stripCodes l).reverse := by
  unfold stripCodes
  rw [List.reverse_reverse]
  exact dropWhile_dropWhile _ _

theorem stripCodes_idem (l : List Nat) : stripCodes (stripCodes l) = stripCodes l :=
  stripCodes_of_fixed (stripCodes_fixed_left l) (stripCodes_fixed_right l)

theorem dropWhile_map_lower (l : List Nat) :
    (l.map lowerCode).dropWhile isSpaceCode = (l.dropWhile isSpaceCode).map lowerCode := by
  induction l with
  | nil => rfl
  | cons a t ih =>
    by_cases h : isSpaceCode a = true
    · simp only [List.map_cons, List.dropWhile, isSpace_lowerCode, h]
      exact ih
    · have h0 : isSpaceCode a = false := by simpa using h
      rw [List.map_cons, dropWhile_cons_false (by rw [isSpace_lowerCode]; exact h0),
        dropWhile_cons_false h0, List.map_cons]

theorem stripCodes_map_lower (l : List Nat) :
    stripCodes (l.map lowerCode) = (stripCodes l).map lowerCode := by
  unfold stripCodes
  rw [dropWhile_map_lower, ← List.map_reverse, dropWhile_map_lower, ← List.map_reverse]

theorem map_lower_idem (l : List Nat) :
    (l.map lowerCode).map lowerCode = l.map lowerCode := by
  induction l with
  | nil => rfl
  | cons a t ih => simp [lowerCode_idem, ih]

theorem sentinel_no_space : ∀ t ∈ sentinelCodes, ∀ x ∈ t, isSpaceCode x = false := by
  decide

theorem core_no_space {core : List Nat} (h : core.map lowerCode ∈ sentinelCodes) :
    ∀ c ∈ core, isSpaceCode c = false := by
  intro c hc
  have hm : lowerCode c ∈ core.map lowerCode := List.mem_map_of_mem _ hc
  have hns : isSpaceCode (lowerCode c) = false := sentinel_no_space _ h _ hm
  rw [isSpace_lowerCode] at hns
  exact hns

theorem strip_padded {w1 w2 core : List Nat}
    (h1 : ∀ c ∈ w1, isSpaceCode c = true) (h2 : ∀ c ∈ w2, isSpaceCode c = true)
    (hns : ∀ c ∈ core, isSpaceCode c = false) :
    stripCodes (w1 ++ core ++ w2) = core := by
  unfold stripCodes
  rw [List.append_assoc, dropWhile_append_all h1]
  cases core with
  | nil =>
    rw [List.nil_append, dropWhile_all h2]
    rfl
  | cons a t =>
    have ha : isSpaceCode a = false := hns a (by simp)
    rw [List.cons_append, dropWhile_cons_false ha, List.reverse_cons, List.reverse_append,
      List.append_assoc, dropWhile_append_all (fun c hc => h2 c (List.mem_reverse.mp hc))]
    cases htr : t.reverse with
    | nil =>
      have ht : t = [] := by simpa using congrArg List.reverse htr
      subst ht
      simp [List.dropWhile, ha]
    | cons b r =>
      have hb : b ∈ t := List.mem_reverse.mp (htr ▸ List.mem_cons_self b r)
      have hbns : isSpaceCode b = false := hns b (by simp [hb])
      rw [List.cons_append, dropWhile_cons_false hbns, ← List.cons_append,
        List.reverse_append, ← htr]
      simp

/-- C3: every sentinel variant — concrete inputs and whitespace-padded,
case-insensitive variants in general — normalizes to the canonical empty
string; every other input is returned trimmed and case-folded. -/
theorem spec_C3 :
    (norm (codes "") = [] ∧ norm (codes "NA") = [] ∧ norm (codes "N/A") = [] ∧
     norm (codes "null") = [] ∧ norm (codes "NaN") = [] ∧ norm (codes "  na ") = []) ∧
    (∀ w1 w2 core : List Nat, (∀ c ∈ w1, isSpaceCode c = true) →
      (∀ c ∈ w2, isSpaceCode c = true) → core.map lowerCode ∈ sentinelCodes →
      norm (w1 ++ core ++ w2) = []) ∧
    (∀ l : List Nat, (stripCodes l).map lowerCode ∉ sentinelCodes →
      norm l = (stripCodes l).map lowerCode) := by
  refine ⟨by decide, ?_, ?_⟩
  · intro w1 w2 core h1 h2 hsent
    have hstrip := strip_padded h1 h2 (core_no_space hsent)
    have heq : norm (w1 ++ core ++ w2)
        = (if (stripCodes (w1 ++ core ++ w2)).map lowerCode ∈ sentinelCodes then []
           else (stripCodes (w1 ++ core ++ w2)).map lowerCode) := rfl
    rw [heq, hstrip, if_pos hsent]
  · intro l h
    simp [norm, h]

/-- Witness for C3: the padded case-variant " nA  " normalizes to the empty string. -/
theorem spec_C3_witness : norm (codes " " ++ codes "nA" ++ codes "  ") = [] :=
  spec_C3.2.1 (codes " ") (codes "  ") (codes "nA") (by decide) (by decide) (by decide)

/-- C4: the identity normalizer is total (every raw string maps to exactly one
canonical form) and idempotent (canonical forms never re-normalize to something
different). -/
theorem spec_C4 :
    (∀ l : List Nat, ∃! t, norm l = t) ∧ (∀ l : List Nat, norm (norm l) = norm l) := by
  constructor
  · exact fun l => ⟨norm l, rfl, fun y hy => hy.symm⟩
  · intro l
    by_cases h : (stripCodes l).map lowerCode ∈ sentinelCodes
    · have hl : norm l = [] := by simp [norm, h]
      rw [hl]
      decide
    · have hl : norm l = (stripCodes l).map lowerCode := by simp [norm, h]
      rw [hl]
      have hstrip : stripCodes ((stripCodes l).map lowerCode)
          = (stripCodes l).map lowerCode := by
        rw [stripCodes_map_lower, stripCodes_idem]
      have hmap : (stripCodes ((stripCodes l).map lowerCode)).map lowerCode
          = (stripCodes l).map lowerCode := by
        rw [hstrip, map_lower_idem]
      simp [norm, hmap, h]

/-! ## Record Resolver

Modelled from the spec: the resolver (`get_current_assets_only` /
`get_visible_value` deduplication) is not under `src/`; the CHANGELOG
(lines 28-40) records that dates in `DD/MM/YYYY` format are parsed before
comparison (`_normalize_date`), and the spec (section 4.2) states the rule:
group records by normalized identity key, parse `effectiveDate` into a
structured order-comparable date, select the record with the maximum parsed
date, break exact date ties by the greater record id, and exclude records
whose date cannot be parsed from candidacy. -/

structure PRecord where
  rid : Nat
  category : List Nat
  assetName : List Nat
  position : List Nat
  isin : List Nat
  effectiveDate : List Nat
  totalValue : Int
deriving DecidableEq, Repr

/-- Value of one decimal digit code point. -/
def digitVal (n : Nat) : Option Nat := if 48 ≤ n ∧ n ≤ 57 then some (n - 48) else none

/-- Parse a `DD/MM/YYYY` date into the structured triple (year, month, day). -/
def parseDateDMY : List Nat → Option (Nat × Nat × Nat)
  | [d1, d2, s1, m1, m2, s2, y1, y2, y3, y4] =>
    if s1 = 47 ∧ s2 = 47 then
      match digitVal d1, digitVal d2, digitVal m1, digitVal m2,
            digitVal y1, digitVal y2, digitVal y3, digitVal y4 with
      | some a, some b, some c, some d, some e, some f, some g, some h =>
        some (1000 * e + 100 * f + 10 * g + h, 10 * c + d, 10 * a + b)
      | _, _, _, _, _, _, _, _ => none
    else none
  | _ => none

/-- Candidacy rank of a record: structured date plus record id for tie-breaks;
`none` when the date is malformed (excluded from candidacy). -/
def rank (r : PRecord) : Option (Nat × Nat × Nat × Nat) :=
  (parseDateDMY r.effectiveDate).map (fun d => (d.1, d.2.1, d.2.2, r.rid))

/-- Strict lexicographic order on (year, month, day, record id). -/
def lt4 (a b : Nat × Nat × Nat × Nat) : Bool :=
  decide (a.1 < b.1 ∨ (a.1 = b.1 ∧ (a.2.1 < b.2.1 ∨ (a.2.1 = b.2.1 ∧
    (a.2.2.1 < b.2.2.1 ∨ (a.2.2.1 = b.2.2.1 ∧ a.2.2.2 < b.2.2.2))))))

theorem lt4_irrefl (q : Nat × Nat × Nat × Nat) : lt4 q q = false := by
  simp [lt4]

theorem lt4_false_left {q qa qb : Nat × Nat × Nat × Nat}
    (h1 : lt4 q qa = false) (h2 : lt4 qb qa = true) : lt4 q qb = false := by
  simp only [lt4, decide_eq_false_iff_not, decide_eq_true_eq] at *
  omega

theorem lt4_false_trans {q qa qb : Nat × Nat × Nat × Nat}
    (h1 : lt4 q qb = false) (h2 : lt4 qb qa = false) : lt4 q qa = false := by
  simp only [lt4, decide_eq_false_iff_not] at *
  omega

/-- One step of the selection fold: keep the better-ranked candidate,
ignoring records whose date did not parse. -/
def better (acc : Option PRecord) (r : PRecord) : Option PRecord :=
  match rank r with
  | none => acc
  | some q =>
    match acc with
    | none => some r
    | some b =>
      match rank b with
      | none => some r
      | some qb => if lt4 qb q then some r else some b

/-- Select the current record of one identity group: maximum parsed date,
ties broken by greater record id. -/
def selectCurrent (l : List PRecord) : Option PRecord := l.foldl better none

theorem foldl_better_sound :
    ∀ (l : List PRecord) (acc : Option PRecord) (r : PRecord),
      l.foldl better acc = some r →
      (acc = some r ∨ (r ∈ l ∧ ∃ q, rank r = some q)) ∧
      (∀ q, rank r = some q → ∀ b, acc = some b → ∀ qb, rank b = some qb →
        lt4 q qb = false) ∧
      (∀ q, rank r = some q → ∀ r' ∈ l, ∀ q', rank r' = some q' →
        lt4 q q' = false) := by
  intro l
  induction l with
  | nil =>
    intro acc r h
    simp only [List.foldl] at h
    refine ⟨Or.inl h, ?_, ?_⟩
    · intro q hq b hb qb hqb
      rw [h] at hb
      injection hb with hb
      subst hb
      rw [hq] at hqb
      injection hqb with hqb
      subst hqb
      exact lt4_irrefl q
    · intro q hq r' hr'
      simp at hr'
  | cons a t ih =>
    intro acc r h
    rw [List.foldl_cons] at h
    obtain ⟨ihmem, ihacc, ihdom⟩ := ih (better acc a) r h
    cases hra : rank a with
    | none =>
      have hb : better acc a = acc := by simp [better, hra]
      rw [hb] at ihmem ihacc
      refine ⟨?_, ihacc, ?_⟩
      · rcases ihmem with h0 | ⟨hm, hq⟩
        · exact Or.inl h0
        · exact Or.inr ⟨List.mem_cons_of_mem _ hm, hq⟩
      · intro q hq r' hr' q' hq'
        rcases List.mem_cons.mp hr' with rfl | hr't
        · rw [hra] at hq'
          cases hq'
        · exact ihdom q hq r' hr't q' hq'
    | some qa =>
      cases acc with
      | none =>
        have hb : better none a = some a := by simp [better, hra]
        rw [hb] at ihmem ihacc
        refine ⟨?_, ?_, ?_⟩
        · rcases ihmem with h0 | ⟨hm, hq⟩
          · injection h0 with h0
            subst h0
            exact Or.inr ⟨List.mem_cons_self _ _, qa, hra⟩
          · exact Or.inr ⟨List.mem_cons_of_mem _ hm, hq⟩
        · intro q hq b hbeq qb hqb
          cases hbeq
        · intro q hq r' hr' q' hq'
          rcases List.mem_cons.mp hr' with rfl | hr't
          · rw [hra] at hq'
            injection hq' with hq'
            subst hq'
            exact ihacc q hq r' rfl qa hra
          · exact ihdom q hq r' hr't q' hq'
      | some b0 =>
        cases hrb : rank b0 with
        | none =>
          have hb : better (some b0) a = some a := by simp [better, hra, hrb]
          rw [hb] at ihmem ihacc
          refine ⟨?_, ?_, ?_⟩
          · rcases ihmem with h0 | ⟨hm, hq⟩
            · injection h0 with h0
              subst h0
              exact Or.inr ⟨List.mem_cons_self _ _, qa, hra⟩
            · exact Or.inr ⟨List.mem_cons_of_mem _ hm, hq⟩
          · intro q hq b hbeq qb hqb
            injection hbeq with hbeq
            subst hbeq
            rw [hrb] at hqb
            cases hqb
          · intro q hq r' hr' q' hq'
            rcases List.mem_cons.mp hr' with rfl | hr't
            · rw [hra] at hq'
              injection hq' with hq'
              subst hq'
              exact ihacc q hq r' rfl qa hra
            · exact ihdom q hq r' hr't q' hq'
        | some qb0 =>
          by_cases hlt : lt4 qb0 qa = true
          · have hb : better (some b0) a = some a := by simp [better, hra, hrb, hlt]
            rw [hb] at ihmem ihacc
            refine ⟨?_, ?_, ?_⟩
            · rcases ihmem with h0 | ⟨hm, hq⟩
              · injection h0 with h0
                subst h0
                exact Or.inr ⟨List.mem_cons_self _ _, qa, hra⟩
              · exact Or.inr ⟨List.mem_cons_of_mem _ hm, hq⟩
            · intro q hq b hbeq qb hqb
              injection hbeq with hbeq
              subst hbeq
              rw [hrb] at hqb
              injection hqb with hqb
              subst hqb
              exact lt4_false_left (ihacc q hq a rfl qa hra) hlt
            · intro q hq r' hr' q' hq'
              rcases List.mem_cons.mp hr' with rfl | hr't
              · rw [hra] at hq'
                injection hq' with hq'
                subst hq'
                exact ihacc q hq r' rfl qa hra
              · exact ihdom q hq r' hr't q' hq'
          · have hlt' : lt4 qb0 qa = false := by simpa using hlt
            have hb : better (some b0) a = some b0 := by simp [better, hra, hrb, hlt']
            rw [hb] at ihmem ihacc
            refine ⟨?_, ?_, ?_⟩
            · rcases ihmem with h0 | ⟨hm, hq⟩
              · exact Or.inl h0
              · exact Or.inr ⟨List.mem_cons_of_mem _ hm, hq⟩
            · intro q hq b hbeq qb hqb
              injection hbeq with hbeq
              subst hbeq
              rw [hrb] at hqb
              injection hqb with hqb
              subst hqb
              exact ihacc q hq b0 rfl qb0 hrb
            · intro q hq r' hr' q' hq'
              rcases List.mem_cons.mp hr' with rfl | hr't
              · rw [hra] at hq'
                injection hq' with hq'
                subst hq'
                exact lt4_false_trans (ihacc q hq b0 rfl qb0 hrb) hlt'
              · exact ihdom q hq r' hr't q' hq'

theorem selectCurrent_sound {l : List PRecord} {r : PRecord}
    (h : selectCurrent l = some r) :
    r ∈ l ∧ ∃ q, rank r = some q ∧ ∀ r' ∈ l, ∀ q', rank r' = some q' →
      lt4 q q' = false := by
  obtain ⟨hmem, _, hdom⟩ := foldl_better_sound l none r h
  rcases hmem with h0 | ⟨hm, q, hq⟩
  · cases h0
  · exact ⟨hm, q, hq, fun r' hr' q' hq' => hdom q hq r' hr' q' hq'⟩

/-- Identity key of a record: the 4-tuple of normalized key fields. -/
def keyOf (r : PRecord) : List Nat × List Nat × List Nat × List Nat :=
  (norm r.category, norm r.assetName, norm r.position, norm r.isin)

/-- All records of one identity group. -/
def groupOf (l : List PRecord) (k : List Nat × List Nat × List Nat × List Nat) :
    List PRecord :=
  l.filter (fun r => decide (keyOf r = k))

/-- Modelled from the spec: `get_current_assets_only` — one current record per
identity key, the group member with maximal (parsed date, record id). -/
def getCurrentAssetsOnly (l : List PRecord) : List PRecord :=
  ((l.map keyOf).dedup).filterMap (fun k => selectCurrent (groupOf l k))

/-- Modelled from the spec: the total reported by `get_portfolio_summary` —
the chosen representative's totalValue summed per identity over the full
unfiltered record set. -/
def portfolioTotalValue (l : List PRecord) : Int :=
  (((l.map keyOf).dedup).map
    (fun k => ((selectCurrent (groupOf l k)).map PRecord.totalValue).getD 0)).sum

/-- Record effective on 05/11/2024 (5 November 2024). -/
def recNov : PRecord :=
  ⟨1, codes "ETF", codes "World Fund", codes "NA", codes "IE0001",
   codes "05/11/2024", 1000⟩

/-- Record of the same identity effective on 10/12/2024 (10 December 2024). -/
def recDec : PRecord :=
  ⟨2, codes "ETF", codes "World Fund", codes "", codes "IE0001",
   codes "10/12/2024", 1200⟩

/-- Same identity and same date as `recTieB`, smaller record id. -/
def recTieA : PRecord :=
  ⟨3, codes "ETF", codes "World Fund", codes "NA", codes "IE0001",
   codes "10/12/2024", 1300⟩

/-- Same identity and same date as `recTieA`, greater record id. -/
def recTieB : PRecord :=
  ⟨4, codes "ETF", codes "World Fund", codes "NA", codes "IE0001",
   codes "10/12/2024", 1400⟩

/-- C2: the resolver selects, per identity group, the record whose parsed
structured date is maximal, ties broken by the greater record id; concretely,
"10/12/2024" beats "05/11/2024" regardless of insertion order (note the raw
strings compare the other way around lexicographically). -/
theorem spec_C2 :
    (∀ (l : List PRecord) (r : PRecord), selectCurrent l = some r →
      r ∈ l ∧ ∃ q, rank r = some q ∧ ∀ r' ∈ l, ∀ q', rank r' = some q' →
        lt4 q q' = false) ∧
    (getCurrentAssetsOnly [recNov, recDec] = [recDec] ∧
     getCurrentAssetsOnly [recDec, recNov] = [recDec]) ∧
    (selectCurrent [recTieA, recTieB] = some recTieB ∧
     selectCurrent [recTieB, recTieA] = some recTieB) :=
  ⟨fun _ _ h => selectCurrent_sound h, by decide, by decide⟩

/-- Witness for C2: the maximality property instantiated on the two concrete
records of the claim. -/
theorem spec_C2_witness :
    recDec ∈ [recNov, recDec] ∧ ∃ q, rank recDec = some q ∧
      ∀ r' ∈ [recNov, recDec], ∀ q', rank r' = some q' → lt4 q q' = false :=
  spec_C2.1 [recNov, recDec] recDec (by decide)

/-! ### Resolver algebra: totals agree and re-resolution is idempotent (C5) -/

theorem sum_filterMap_getD {α : Type} (ks : List α) (f : α → Option PRecord) :
    ((ks.filterMap f).map PRecord.totalValue).sum
      = (ks.map (fun k => ((f k).map PRecord.totalValue).getD 0)).sum := by
  induction ks with
  | nil => rfl
  | cons k t ih => cases hf : f k <;> simp [List.filterMap_cons, hf, ih]

theorem keyOf_selectCurrent {l : List PRecord}
    {k : List Nat × List Nat × List Nat × List Nat} {r : PRecord}
    (h : selectCurrent (groupOf l k) = some r) : keyOf r = k := by
  have hmem := (selectCurrent_sound h).1
  have hf := List.mem_filter.mp hmem
  exact of_decide_eq_true hf.2

theorem map_keyOf_getCurrent (l : List PRecord) :
    (getCurrentAssetsOnly l).map keyOf
      = ((l.map keyOf).dedup).filter
          (fun k => (selectCurrent (groupOf l k)).isSome) := by
  unfold getCurrentAssetsOnly
  generalize (l.map keyOf).dedup = ks
  induction ks with
  | nil => rfl
  | cons k t ih =>
    cases hf : selectCurrent (groupOf l k) with
    | none => simp [List.filterMap_cons, hf, List.filter_cons, ih]
    | some r =>
      have hk : keyOf r = k := keyOf_selectCurrent hf
      simp [List.filterMap_cons, hf, List.filter_cons, hk, ih]

theorem nodup_keys_getCurrent (l : List PRecord) :
    ((getCurrentAssetsOnly l).map keyOf).Nodup := by
  rw [map_keyOf_getCurrent]
  exact (l.map keyOf).nodup_dedup.filter _

theorem rank_some_of_mem_getCurrent {l : List PRecord} {r : PRecord}
    (h : r ∈ getCurrentAssetsOnly l) : ∃ q, rank r = some q := by
  unfold getCurrentAssetsOnly at h
  obtain ⟨k, _, hsel⟩ := List.mem_filterMap.mp h
  obtain ⟨_, q, hq, _⟩ := selectCurrent_sound hsel
  exact ⟨q, hq⟩

theorem groupOf_eq_nil_of_not_mem :
    ∀ {T : List PRecord} {k : List Nat × List Nat × List Nat × List Nat},
      k ∉ T.map keyOf → groupOf T k = [] := by
  intro T
  induction T with
  | nil => intro k _; rfl
  | cons a t ih =>
    intro k h
    have hka : ¬(keyOf a = k) := fun he => h (by simp [← he])
    have ht : k ∉ t.map keyOf := fun hm => h (by simp [hm])
    simp only [groupOf, List.filter_cons, decide_eq_false hka, if_false]
    exact ih ht

theorem groupOf_cons_self {r : PRecord} {T : List PRecord} :
    groupOf (r :: T) (keyOf r) = r :: groupOf T (keyOf r) := by
  simp [groupOf, List.filter_cons]

theorem groupOf_cons_ne {r : PRecord} {T : List PRecord}
    {k : List Nat × List Nat × List Nat × List Nat} (h : ¬(keyOf r = k)) :
    groupOf (r :: T) k = groupOf T k := by
  simp [groupOf, List.filter_cons, h]

theorem selectCurrent_singleton {r : PRecord} {q : Nat × Nat × Nat × Nat}
    (h : rank r = some q) : selectCurrent [r] = some r := by
  simp [selectCurrent, List.foldl, better, h]

theorem filterMap_keys_self :
    ∀ (R : List PRecord), (R.map keyOf).Nodup →
      (∀ r ∈ R, ∃ q, rank r = some q) →
      (R.map keyOf).filterMap (fun k => selectCurrent (groupOf R k)) = R := by
  intro R
  induction R with
  | nil => intro _ _; rfl
  | cons r T ih =>
    intro hnd hrk
    have hknotin : keyOf r ∉ T.map keyOf := (List.nodup_cons.mp hnd).1
    have hgrp : groupOf (r :: T) (keyOf r) = [r] := by
      rw [groupOf_cons_self, groupOf_eq_nil_of_not_mem hknotin]
    obtain ⟨q, hq⟩ := hrk r (by simp)
    rw [List.map_cons, List.filterMap_cons, hgrp, selectCurrent_singleton hq]
    show r :: (T.map keyOf).filterMap (fun k => selectCurrent (groupOf (r :: T) k))
      = r :: T
    congr 1
    have hcong : ∀ k ∈ T.map keyOf,
        selectCurrent (groupOf (r :: T) k) = selectCurrent (groupOf T k) := by
      intro k hk
      have hne : ¬(keyOf r = k) := fun he => hknotin (he ▸ hk)
      rw [groupOf_cons_ne hne]
    rw [List.filterMap_congr hcong]
    exact ih (List.nodup_cons.mp hnd).2 (fun r' h' => hrk r' (by simp [h']))

theorem getCurrent_idem (l : List PRecord) :
    getCurrentAssetsOnly (getCurrentAssetsOnly l) = getCurrentAssetsOnly l := by
  have hnd := nodup_keys_getCurrent l
  have hrk : ∀ r ∈ getCurrentAssetsOnly l, ∃ q, rank r = some q :=
    fun r h => rank_some_of_mem_getCurrent h
  show (((getCurrentAssetsOnly l).map keyOf).dedup).filterMap
      (fun k => selectCurrent (groupOf (getCurrentAssetsOnly l) k))
    = getCurrentAssetsOnly l
  rw [List.dedup_eq_self.mpr hnd]
  exact filterMap_keys_self _ hnd hrk

/-- C5: the resolved view set's summed totalValue equals the per-identity
representative total computed independently from the full unfiltered record
set, and re-resolving an unchanged (already resolved) record set yields the
same result. -/
theorem spec_C5 :
    ∀ l : List PRecord,
      ((getCurrentAssetsOnly l).map PRecord.totalValue).sum = portfolioTotalValue l ∧
      getCurrentAssetsOnly (getCurrentAssetsOnly l) = getCurrentAssetsOnly l :=
  fun l => ⟨sum_filterMap_getD _ _, getCurrent_idem l⟩

/-! ## Anomaly Detector (C6)

Modelled from the spec: `price_validation.py` is not under `src/`; the
CHANGELOG (lines 81-111) records the thresholds (<20% accepted, 20-50%
warning, >50% critical, split pattern detection with `100 → 400` reported as
split ratio `(1, 4)`), and the spec (section 4.6) fixes the rule: percent
change `(new - old) / old * 100`, magnitude buckets at 20 and 50, and an
upgrade to PotentialSplit when `new/old` or `old/new` is within a ±2%
tolerance of an integer ratio in {2, 3, 4, 5, 10}. -/

inductive AnomalyType
  | normal
  | warning
  | critical
  | potentialSplit
deriving DecidableEq, Repr

def percentChange (oldP newP : ℚ) : ℚ := (newP - oldP) / oldP * 100

def warningThreshold : ℚ := 20

def criticalThreshold : ℚ := 50

def splitTolerance : ℚ := 2 / 100

def splitRatios : List Nat := [2, 3, 4, 5, 10]

/-- Is `x` within the split tolerance of the integer ratio `n`? -/
def nearRatio (x : ℚ) (n : Nat) : Bool :=
  decide (|x - (n : ℚ)| ≤ splitTolerance * (n : ℚ))

/-- Detect a split pattern: forward split `1:n` when `new/old ≈ n`, reverse
split `n:1` when `old/new ≈ n`. -/
def detectSplit (oldP newP : ℚ) : Option (Nat × Nat) :=
  match splitRatios.find? (fun n => nearRatio (newP / oldP) n) with
  | some n => some (1, n)
  | none =>
    match splitRatios.find? (fun n => nearRatio (oldP / newP) n) with
    | some n => some (n, 1)
    | none => none

/-- Magnitude bucket of a price change. -/
def classifyMagnitude (oldP newP : ℚ) : AnomalyType :=
  if |percentChange oldP newP| < warningThreshold then .normal
  else if |percentChange oldP newP| < criticalThreshold then .warning
  else .critical

/-- Modelled from the spec: `PriceValidator.validate_price_update` — the
split check upgrades any magnitude bucket to PotentialSplit. -/
def validatePriceUpdate (oldP newP : ℚ) : AnomalyType × Option (Nat × Nat) :=
  match detectSplit oldP newP with
  | some rt => (.potentialSplit, some rt)
  | none => (classifyMagnitude oldP newP, none)

theorem findForward_100_400 :
    splitRatios.find? (fun n => nearRatio ((400 : ℚ) / 100) n) = some 4 := by
  have h2 : nearRatio ((400 : ℚ) / 100) 2 = false := by
    norm_num [nearRatio, splitTolerance, lt_abs]
  have h3 : nearRatio ((400 : ℚ) / 100) 3 = false := by
    norm_num [nearRatio, splitTolerance, lt_abs]
  have h4 : nearRatio ((400 : ℚ) / 100) 4 = true := by
    norm_num [nearRatio, splitTolerance]
  simp [splitRatios, List.find?, h2, h3, h4]

theorem findForward_100_105 :
    splitRatios.find? (fun n => nearRatio ((105 : ℚ) / 100) n) = none := by
  rw [List.find?_eq_none]
  intro n hn
  fin_cases hn <;> norm_num [nearRatio, splitTolerance, lt_abs]

theorem findReverse_100_105 :
    splitRatios.find? (fun n => nearRatio ((100 : ℚ) / 105) n) = none := by
  rw [List.find?_eq_none]
  intro n hn
  fin_cases hn <;> norm_num [nearRatio, splitTolerance, lt_abs]

theorem findForward_100_160 :
    splitRatios.find? (fun n => nearRatio ((160 : ℚ) / 100) n) = none := by
  rw [List.find?_eq_none]
  intro n hn
  fin_cases hn <;> norm_num [nearRatio, splitTolerance, lt_abs]

theorem findReverse_100_160 :
    splitRatios.find? (fun n => nearRatio ((100 : ℚ) / 160) n) = none := by
  rw [List.find?_eq_none]
  intro n hn
  fin_cases hn <;> norm_num [nearRatio, splitTolerance, lt_abs]

theorem findForward_100_40 :
    splitRatios.find? (fun n => nearRatio ((40 : ℚ) / 100) n) = none := by
  rw [List.find?_eq_none]
  intro n hn
  fin_cases hn <;> norm_num [nearRatio, splitTolerance, lt_abs]

theorem findReverse_100_40 :
    splitRatios.find? (fun n => nearRatio ((100 : ℚ) / 40) n) = none := by
  rw [List.find?_eq_none]
  intro n hn
  fin_cases hn <;> norm_num [nearRatio, splitTolerance, lt_abs]

theorem detect_100_400 : detectSplit 100 400 = some (1, 4) := by
  unfold detectSplit
  rw [findForward_100_400]

theorem detect_100_105 : detectSplit 100 105 = none := by
  unfold detectSplit
  rw [findForward_100_105, findReverse_100_105]

theorem detect_100_160 : detectSplit 100 160 = none := by
  unfold detectSplit
  rw [findForward_100_160, findReverse_100_160]

theorem detect_100_40 : detectSplit 100 40 = none := by
  unfold detectSplit
  rw [findForward_100_40, findReverse_100_40]

theorem classify_100_105 : classifyMagnitude 100 105 = AnomalyType.normal := by
  unfold classifyMagnitude
  rw [show percentChange 100 105 = 5 by norm_num [percentChange]]
  rw [if_pos (by norm_num [warningThreshold])]

theorem classify_100_160 : classifyMagnitude 100 160 = AnomalyType.critical := by
  unfold classifyMagnitude
  rw [show percentChange 100 160 = 60 by norm_num [percentChange]]
  rw [if_neg (by norm_num [warningThreshold]), if_neg (by norm_num [criticalThreshold])]

theorem classify_100_40 : classifyMagnitude 100 40 = AnomalyType.critical := by
  unfold classifyMagnitude
  rw [show percentChange 100 40 = -60 by norm_num [percentChange]]
  rw [if_neg (by norm_num [warningThreshold]), if_neg (by norm_num [criticalThreshold])]

theorem validate_100_400 :
    validatePriceUpdate 100 400 = (AnomalyType.potentialSplit, some (1, 4)) := by
  unfold validatePriceUpdate
  rw [detect_100_400]

theorem validate_100_105 :
    validatePriceUpdate 100 105 = (AnomalyType.normal, none) := by
  unfold validatePriceUpdate
  rw [detect_100_105]
  rw [classify_100_105]

theorem validate_100_160 :
    validatePriceUpdate 100 160 = (AnomalyType.critical, none) := by
  unfold validatePriceUpdate
  rw [detect_100_160]
  rw [classify_100_160]

theorem validate_100_40 :
    validatePriceUpdate 100 40 = (AnomalyType.critical, none) := by
  unfold validatePriceUpdate
  rw [detect_100_40]
  rw [classify_100_40]

/-- Counterexample for C6: under the stated rule, 100 → 160 is Critical (the
change is +60% ≥ 50%), not Warning; and 100 → 40 detects no split, since
100/40 = 2.5 is not within the 2% tolerance of any ratio in {2, 3, 4, 5, 10},
so it is not PotentialSplit with ratio (4, 1). -/
theorem spec_C6_counterexample :
    validatePriceUpdate 100 160 = (AnomalyType.critical, none) ∧
    validatePriceUpdate 100 40 = (AnomalyType.critical, none) ∧
    (validatePriceUpdate 100 160).1 ≠ AnomalyType.warning ∧
    (validatePriceUpdate 100 40).2 ≠ some (4, 1) := by
  refine ⟨validate_100_160, validate_100_40, ?_, ?_⟩
  · rw [validate_100_160]
    simp
  · rw [validate_100_40]
    simp

/-- C6 (amended): the detector computes percent change as
`(new - old)/old * 100` with buckets Normal (< 20), Warning ([20, 50)),
Critical (≥ 50), upgraded to PotentialSplit when `new/old` or `old/new` is
within tolerance of a ratio in {2, 3, 4, 5, 10}; concretely 100 → 400 is
PotentialSplit with ratio (1, 4), 100 → 105 is Normal, 100 → 160 is Critical
(+60% exceeds the 50% bound), and 100 → 40 is Critical with no split detected
(2.5 is not within tolerance of any allowed ratio). -/
theorem spec_C6 :
    (∀ (o n : ℚ) (rt : Nat × Nat), detectSplit o n = some rt →
      validatePriceUpdate o n = (AnomalyType.potentialSplit, some rt)) ∧
    (∀ o n : ℚ, detectSplit o n = none →
      validatePriceUpdate o n = (classifyMagnitude o n, none)) ∧
    (∀ o n : ℚ, |percentChange o n| < 20 → classifyMagnitude o n = .normal) ∧
    (∀ o n : ℚ, 20 ≤ |percentChange o n| → |percentChange o n| < 50 →
      classifyMagnitude o n = .warning) ∧
    (∀ o n : ℚ, 50 ≤ |percentChange o n| → classifyMagnitude o n = .critical) ∧
    (validatePriceUpdate 100 400 = (AnomalyType.potentialSplit, some (1, 4)) ∧
     validatePriceUpdate 100 105 = (AnomalyType.normal, none) ∧
     validatePriceUpdate 100 160 = (AnomalyType.critical, none) ∧
     validatePriceUpdate 100 40 = (AnomalyType.critical, none)) := by
  refine ⟨?_, ?_, ?_, ?_, ?_,
    validate_100_400, validate_100_105, validate_100_160, validate_100_40⟩
  · intro o n rt h
    unfold validatePriceUpdate
    rw [h]
  · intro o n h
    unfold validatePriceUpdate
    rw [h]
  · intro o n h
    unfold classifyMagnitude warningThreshold criticalThreshold
    split_ifs
    rfl
  · intro o n h1 h2
    unfold classifyMagnitude warningThreshold criticalThreshold
    split_ifs <;> first | rfl | (exfalso; linarith)
  · intro o n h
    unfold classifyMagnitude warningThreshold criticalThreshold
    split_ifs <;> first | rfl | (exfalso; linarith)

/-- Witness for C6: the split-upgrade rule applied at the concrete 100 → 400
update. -/
theorem spec_C6_witness :
    validatePriceUpdate 100 400 = (AnomalyType.potentialSplit, some (1, 4)) :=
  spec_C6.1 100 400 (1, 4) detect_100_400

/-! ## Retry/Backoff Engine (C7, C8)

Modelled from the spec: `api_retry.py` is not under `src/`; the CHANGELOG
(lines 114-135) records the configuration (max 3 attempts, initial delay 1s,
exponential backoff 1s → 2s → 4s, max delay 30s, retry on HTTP 429/503/504,
timeout and connection errors) and the spec (sections 4.4 and 7) fixes the
rule: retry only classified-transient failures, fail immediately on
non-transient ones, delay before retry i is the base times 2^i capped. -/

inductive ErrKind
  | httpStatus (code : Nat)
  | timeout
  | connectionError
  | symbolNotFound
  | malformedResponse
deriving DecidableEq, Repr

/-- Transient failures: network timeout, connection error, HTTP 429, 503, 504. -/
def isTransient : ErrKind → Bool
  | .timeout => true
  | .connectionError => true
  | .httpStatus c => c == 429 || c == 503 || c == 504
  | .symbolNotFound => false
  | .malformedResponse => false

structure RetryPolicy where
  maxRetries : Nat
  baseDelay : Nat
  capDelay : Nat
deriving DecidableEq, Repr

def defaultPolicy : RetryPolicy := ⟨3, 1, 30⟩

/-- Delay (seconds) slept before retry number `i` (0-based). -/
def backoffDelay (p : RetryPolicy) (i : Nat) : Nat :=
  min (p.baseDelay * 2 ^ i) p.capDelay

inductive CallOutcome (α : Type)
  | ok (v : α)
  | failed (e : ErrKind)
deriving DecidableEq, Repr

structure RetryResult (α : Type) where
  outcome : CallOutcome α
  retries : Nat
  delays : List Nat
deriving DecidableEq, Repr

/-- The retry loop: `remaining` retries left, currently on attempt number
`attempt` (0-based), `ds` the delays slept so far. -/
def retryAux {α : Type} (p : RetryPolicy) (op : Nat → CallOutcome α) :
    Nat → Nat → List Nat → RetryResult α
  | remaining, attempt, ds =>
    match op attempt with
    | .ok v => ⟨.ok v, attempt, ds⟩
    | .failed e =>
      if isTransient e then
        match remaining with
        | 0 => ⟨.failed e, attempt, ds⟩
        | r + 1 => retryAux p op r (attempt + 1) (ds ++ [backoffDelay p attempt])
      else ⟨.failed e, attempt, ds⟩

/-- Modelled from the spec: `retry_with_backoff` — run the operation with
bounded retries and exponential backoff. -/
def retryWithBackoff {α : Type} (p : RetryPolicy) (op : Nat → CallOutcome α) :
    RetryResult α :=
  retryAux p op p.maxRetries 0 []

/-- Operation that fails with HTTP 503 on the first two attempts and
succeeds on the third. -/
def op503 : Nat → CallOutcome Nat :=
  fun a => if a < 2 then .failed (.httpStatus 503) else .ok 42

theorem retryAux_spec {α : Type} (p : RetryPolicy) (op : Nat → CallOutcome α) :
    ∀ (rem a : Nat) (ds : List Nat),
      a ≤ (retryAux p op rem a ds).retries ∧
      (retryAux p op rem a ds).delays
        = ds ++ (List.range' a ((retryAux p op rem a ds).retries - a)).map
            (backoffDelay p) := by
  intro rem
  induction rem with
  | zero =>
    intro a ds
    unfold retryAux
    cases op a with
    | ok v => simp [List.range']
    | failed e =>
      by_cases ht : isTransient e = true
      · simp [ht, List.range']
      · simp [ht, List.range']
  | succ r ih =>
    intro a ds
    unfold retryAux
    cases op a with
    | ok v => simp [List.range']
    | failed e =>
      by_cases ht : isTransient e = true
      · simp only [ht, if_true]
        obtain ⟨h1, h2⟩ := ih (a + 1) (ds ++ [backoffDelay p a])
        refine ⟨by omega, ?_⟩
        rw [h2]
        have hk : (retryAux p op r (a + 1) (ds ++ [backoffDelay p a])).retries - a
            = ((retryAux p op r (a + 1) (ds ++ [backoffDelay p a])).retries - (a + 1))
              + 1 := by
          omega
        rw [hk, List.range']
        simp
      · simp [ht, List.range']

theorem retryWithBackoff_delays {α : Type} (p : RetryPolicy)
    (op : Nat → CallOutcome α) :
    (retryWithBackoff p op).delays
      = (List.range (retryWithBackoff p op).retries).map (backoffDelay p) := by
  have h := (retryAux_spec p op p.maxRetries 0 []).2
  unfold retryWithBackoff
  rw [List.range_eq_range']
  simpa using h

theorem backoffDelay_le_cap (p : RetryPolicy) (i : Nat) :
    backoffDelay p i ≤ p.capDelay :=
  min_le_right _ _

theorem backoffDelay_mono (p : RetryPolicy) {i j : Nat} (h : i ≤ j) :
    backoffDelay p i ≤ backoffDelay p j :=
  min_le_min
    (Nat.mul_le_mul_left _ (Nat.pow_le_pow_right (by norm_num) h)) le_rfl

theorem backoffDelay_zero (p : RetryPolicy) (h : p.baseDelay ≤ p.capDelay) :
    backoffDelay p 0 = p.baseDelay := by
  unfold backoffDelay
  simp [Nat.min_eq_left h]

/-- C7: a call failing with HTTP 503 twice then succeeding on the third
attempt returns success with exactly 2 retries recorded and delays 1s, 2s;
in general the recorded delays are exactly `base * 2 ^ i` capped at the cap,
which start at the base, never decrease attempt-over-attempt, and never
exceed the cap. -/
theorem spec_C7 :
    retryWithBackoff defaultPolicy op503
      = ⟨CallOutcome.ok 42, 2, [1, 2]⟩ ∧
    (∀ (p : RetryPolicy) (op : Nat → CallOutcome Nat),
      (retryWithBackoff p op).delays
        = (List.range (retryWithBackoff p op).retries).map (backoffDelay p)) ∧
    (∀ (p : RetryPolicy) (i j : Nat), i ≤ j →
      backoffDelay p i ≤ backoffDelay p j) ∧
    (∀ (p : RetryPolicy) (i : Nat), backoffDelay p i ≤ p.capDelay) ∧
    (∀ p : RetryPolicy, p.baseDelay ≤ p.capDelay →
      backoffDelay p 0 = p.baseDelay) :=
  ⟨by decide, fun p op => retryWithBackoff_delays p op,
   fun p i j h => backoffDelay_mono p h,
   fun p i => backoffDelay_le_cap p i,
   fun p h => backoffDelay_zero p h⟩

/-- Witness for C7: monotonicity and base value of the backoff schedule at
the default policy. -/
theorem spec_C7_witness :
    backoffDelay defaultPolicy 0 ≤ backoffDelay defaultPolicy 1 ∧
    backoffDelay defaultPolicy 0 = defaultPolicy.baseDelay :=
  ⟨spec_C7.2.2.1 defaultPolicy 0 1 (by decide),
   spec_C7.2.2.2.2 defaultPolicy (by decide)⟩

theorem retryAux_const_failed {α : Type} (p : RetryPolicy) (e : ErrKind)
    (ht : isTransient e = true) :
    ∀ (rem a : Nat) (ds : List Nat),
      (retryAux p (fun _ => (CallOutcome.failed e : CallOutcome α)) rem a ds).retries
        = a + rem := by
  intro rem
  induction rem with
  | zero =>
    intro a ds
    unfold retryAux
    simp [ht]
  | succ r ih =>
    intro a ds
    unfold retryAux
    simp only [ht, if_true]
    rw [ih (a + 1) (ds ++ [backoffDelay p a])]
    omega

/-- C8: non-transient failures (symbol not found, malformed response, HTTP
4xx other than 429) fail immediately with no retry attempt and no delay,
while transient failures (timeout, connection error, HTTP 429/503/504) are
retried up to the policy's budget. -/
theorem spec_C8 :
    (∀ (p : RetryPolicy) (e : ErrKind) (op : Nat → CallOutcome Nat),
      isTransient e = false → op 0 = .failed e →
      retryWithBackoff p op = ⟨.failed e, 0, []⟩) ∧
    (∀ (p : RetryPolicy) (e : ErrKind), isTransient e = true →
      (retryWithBackoff p (fun _ => (CallOutcome.failed e : CallOutcome Nat))).retries
        = p.maxRetries) ∧
    (isTransient (.httpStatus 429) = true ∧ isTransient (.httpStatus 503) = true ∧
     isTransient (.httpStatus 504) = true ∧ isTransient .timeout = true ∧
     isTransient .connectionError = true ∧
     isTransient (.httpStatus 404) = false ∧ isTransient (.httpStatus 400) = false ∧
     isTransient .symbolNotFound = false ∧
     isTransient .malformedResponse = false) := by
  refine ⟨?_, ?_, by decide⟩
  · intro p e op hnt hop
    unfold retryWithBackoff retryAux
    rw [hop]
    simp [hnt]
  · intro p e ht
    unfold retryWithBackoff
    rw [retryAux_const_failed p e ht]
    omega

/-- Witness for C8: a symbol-not-found failure is surfaced immediately with
zero retries and no delays, under the default policy. -/
theorem spec_C8_witness :
    retryWithBackoff defaultPolicy
        (fun _ => (CallOutcome.failed ErrKind.symbolNotFound : CallOutcome Nat))
      = ⟨CallOutcome.failed ErrKind.symbolNotFound, 0, []⟩ :=
  spec_C8.1 defaultPolicy ErrKind.symbolNotFound _ (by decide) rfl

/-! ## Performance Calculator (C9)

Modelled from the spec: `price_history.py` is not under `src/`; the CHANGELOG
(lines 144-188) records the metrics (absolute and percentage return, CAGR,
annualized volatility as standard deviation of returns, max drawdown) and the
spec (section 4.7) fixes the rules: period-over-period percentage returns
skipping non-positive base values, volatility as their standard deviation
(zero volatility holds exactly when the variance computed here is zero),
drawdown relative to the running peak, and undefined-as-zero degenerate
cases. -/

/-- Period-over-period percentage returns; a non-positive base value is
skipped rather than crashing. -/
def periodReturns : List ℚ → List ℚ
  | a :: b :: rest =>
    if 0 < a then ((b - a) / a * 100) :: periodReturns (b :: rest)
    else periodReturns (b :: rest)
  | _ => []

def meanQ (l : List ℚ) : ℚ := if l.length = 0 then 0 else l.sum / l.length

def varianceQ (l : List ℚ) : ℚ :=
  if l.length = 0 then 0 else ((l.map (fun x => (x - meanQ l) ^ 2)).sum) / l.length

/-- Square of the annualized volatility (the volatility itself is its square
root, so it is zero exactly when this is zero). -/
def annualizedVolSq (l : List ℚ) (periodsPerYear : ℚ) : ℚ :=
  varianceQ (periodReturns l) * periodsPerYear

def mddAux : ℚ → List ℚ → ℚ
  | _, [] => 0
  | peak, v :: rest =>
    max (if 0 < peak then (peak - v) / peak * 100 else 0) (mddAux (max peak v) rest)

/-- Maximum drawdown: the largest peak-to-trough percentage decline. -/
def maxDrawdown : List ℚ → ℚ
  | [] => 0
  | v :: rest => mddAux v rest

def absoluteReturn (l : List ℚ) : ℚ := l.getLast?.getD 0 - l.head?.getD 0

def percentageReturn (l : List ℚ) : ℚ :=
  if 0 < l.head?.getD 0 then
    (l.getLast?.getD 0 - l.head?.getD 0) / l.head?.getD 0 * 100
  else 0

theorem periodReturns_cons_cons (a b : ℚ) (rest : List ℚ) :
    periodReturns (a :: b :: rest)
      = if 0 < a then ((b - a) / a * 100) :: periodReturns (b :: rest)
        else periodReturns (b :: rest) := rfl

theorem periodReturns_replicate (c : ℚ) (hc : 0 < c) :
    ∀ N : Nat, periodReturns (List.replicate N c) = List.replicate (N - 1) 0 := by
  intro N
  induction N with
  | zero => rfl
  | succ n ih =>
    cases n with
    | zero => rfl
    | succ m =>
      have h2 : List.replicate (m + 2) c = c :: c :: List.replicate m c := rfl
      rw [h2, periodReturns_cons_cons, if_pos hc, sub_self, zero_div, zero_mul]
      have h1 : c :: List.replicate m c = List.replicate (m + 1) c := rfl
      rw [h1, ih]
      rfl

theorem variance_replicate_zero : ∀ k : Nat, varianceQ (List.replicate k (0 : ℚ)) = 0 := by
  intro k
  cases k with
  | zero => rfl
  | succ m =>
    have hm : meanQ (List.replicate (m + 1) (0 : ℚ)) = 0 := by
      unfold meanQ
      rw [if_neg (by simp)]
      simp [List.sum_replicate]
    unfold varianceQ
    rw [if_neg (by simp), hm]
    simp [List.map_replicate, List.sum_replicate]

theorem mddAux_const (c : ℚ) (hc : 0 < c) :
    ∀ k : Nat, mddAux c (List.replicate k c) = 0 := by
  intro k
  induction k with
  | zero => rfl
  | succ m ih =>
    show max (if 0 < c then (c - c) / c * 100 else 0)
        (mddAux (max c c) (List.replicate m c)) = 0
    rw [if_pos hc, sub_self, zero_div, zero_mul, max_self, ih]
    simp

theorem maxDrawdown_replicate (c : ℚ) (hc : 0 < c) (N : Nat) :
    maxDrawdown (List.replicate N c) = 0 := by
  cases N with
  | zero => rfl
  | succ m => exact mddAux_const c hc m

/-- C9: a constant positive price series of any length N ≥ 1 has zero
volatility (zero variance of period returns, hence zero annualized
volatility) and zero maximum drawdown; a series of length 1 has all return
and volatility metrics equal to zero. -/
theorem spec_C9 :
    (∀ (N : Nat) (c : ℚ), 1 ≤ N → 0 < c →
      varianceQ (periodReturns (List.replicate N c)) = 0 ∧
      annualizedVolSq (List.replicate N c) 252 = 0 ∧
      maxDrawdown (List.replicate N c) = 0) ∧
    (∀ c : ℚ, absoluteReturn [c] = 0 ∧ percentageReturn [c] = 0 ∧
      varianceQ (periodReturns [c]) = 0 ∧ maxDrawdown [c] = 0) := by
  constructor
  · intro N c _ hc
    have hv : varianceQ (periodReturns (List.replicate N c)) = 0 := by
      rw [periodReturns_replicate c hc N, variance_replicate_zero]
    refine ⟨hv, ?_, maxDrawdown_replicate c hc N⟩
    unfold annualizedVolSq
    rw [periodReturns_replicate c hc N, variance_replicate_zero, zero_mul]
  · intro c
    refine ⟨?_, ?_, rfl, rfl⟩
    · show c - c = 0
      exact sub_self c
    · by_cases h : (0 : ℚ) < c <;> simp [percentageReturn, h]

/-- Witness for C9: the constant series of value 5 and length 3, and the
length-1 series of value 5. -/
theorem spec_C9_witness :
    (varianceQ (periodReturns (List.replicate 3 (5 : ℚ))) = 0 ∧
     annualizedVolSq (List.replicate 3 (5 : ℚ)) 252 = 0 ∧
     maxDrawdown (List.replicate 3 (5 : ℚ)) = 0) ∧
    (absoluteReturn [(5 : ℚ)] = 0 ∧ percentageReturn [(5 : ℚ)] = 0 ∧
     varianceQ (periodReturns [(5 : ℚ)]) = 0 ∧ maxDrawdown [(5 : ℚ)] = 0) :=
  ⟨spec_C9.1 3 5 (by norm_num) (by norm_num), spec_C9.2 5⟩

/-! ## Rate Limiter (C1)

Embedded from `models.py`'s `_maybe_pause`, quoted verbatim in
`src/CHANGELOG.md` (lines 67-72) and `src/PRICE_UPDATE_ALERTS.md`
(lines 69-78): after each attempted request whose 1-based batch position is
divisible by 8, the loop sleeps 8 seconds.  There is no blocking `acquire()`
primitive; the pause is the whole mechanism. -/

/-- Seconds slept after one request: `if request_attempted and
row_position % 8 == 0: time.sleep(8)`. -/
def maybePause (requestAttempted : Bool) (rowPosition : Nat) : Nat :=
  if requestAttempted && rowPosition % 8 == 0 then 8 else 0

/-- Start times of `n` back-to-back attempted requests, each taking zero
seconds itself, with the clock advanced by `maybePause` after each one. -/
def callTimesAux (clock pos : Nat) : Nat → List Nat
  | 0 => []
  | n + 1 => clock :: callTimesAux (clock + maybePause true (pos + 1)) (pos + 1) n

def callTimes (n : Nat) : List Nat := callTimesAux 0 0 n

/-- Counterexample for C1: nine back-to-back calls through the pause-based
limiter all start within the rolling 60-second window beginning at time 0
(the ninth starts at second 8), so the mechanism does not bound calls to
at most 8 per rolling 60-second window. -/
theorem spec_C1_counterexample :
    (callTimes 9).countP (fun t => decide (t < 60)) = 9 ∧
    ¬ (callTimes 9).countP (fun t => decide (t < 60)) ≤ 8 := by
  decide

/-- C1 (amended): the limiter sleeps 8 seconds after every 8th attempted
request and does not pause otherwise, so 9 back-to-back calls always incur
exactly one 8-second wait (before the 9th call) — but the mechanism does not
enforce a rolling-window bound: as many as 64 instantaneous calls start
within one 60-second window. -/
theorem spec_C1 :
    (∀ pos : Nat, pos % 8 = 0 → maybePause true pos = 8) ∧
    (∀ pos : Nat, pos % 8 ≠ 0 → maybePause true pos = 0) ∧
    (∀ pos : Nat, maybePause false pos = 0) ∧
    callTimes 9 = [0, 0, 0, 0, 0, 0, 0, 0, 8] ∧
    (callTimes 64).all (fun t => decide (t < 60)) = true := by
  refine ⟨?_, ?_, ?_, by decide, by decide⟩
  · intro pos h
    simp [maybePause, h]
  · intro pos h
    simp [maybePause, h]
  · intro pos
    simp [maybePause]

/-- Witness for C1: the pause fires at position 8 and not at position 3. -/
theorem spec_C1_witness : maybePause true 8 = 8 ∧ maybePause true 3 = 0 :=
  ⟨spec_C1.1 8 (by decide), spec_C1.2.1 3 (by decide)⟩

/-! ## Application entry point (C10)

Embedded from `src/GAB_AssetMind.pyw`: the launcher tries the refactored
version; on `ImportError` it falls back to the legacy entry point and shows
an error dialog only if the legacy attempt also fails; on any other
exception it shows an error dialog directly with no legacy attempt.  The
embedding abstracts exception payloads away and keeps the control flow. -/

inductive RefOutcome
  | ok
  | importError
  | otherError
deriving DecidableEq, Repr

inductive LegacyOutcome
  | ok
  | error
deriving DecidableEq, Repr

structure LaunchResult where
  ranRefactored : Bool
  attemptedLegacy : Bool
  dialog : Bool
deriving DecidableEq, Repr

/-- Control flow of the `__main__` block of `GAB_AssetMind.pyw`. -/
def launcher : RefOutcome → LegacyOutcome → LaunchResult
  | .ok, _ => ⟨true, false, false⟩
  | .importError, .ok => ⟨false, true, false⟩
  | .importError, .error => ⟨false, true, true⟩
  | .otherError, _ => ⟨false, false, true⟩

/-- C10: the legacy fallback is attempted exactly on ImportError, and an
error dialog is shown exactly when the selected fallback chain is exhausted —
on ImportError only when the legacy version also fails, and on any other
exception immediately. -/
theorem spec_C10 :
    ∀ (r : RefOutcome) (l : LegacyOutcome),
      ((launcher r l).attemptedLegacy = true ↔ r = RefOutcome.importError) ∧
      ((launcher r l).dialog = true ↔
        ((r = RefOutcome.importError ∧ l = LegacyOutcome.error) ∨
         r = RefOutcome.otherError)) := by
  intro r l
  cases r <;> cases l <;> simp [launcher]

end AssetMind
